import Mathlib

/-!
Verification development for the ember-data relationship-graph / record-cache /
fetch-manager core.

Embedded sources:
  packages/record-data/addon -private record-data.ts          (RecordDataDefault)
  packages/record-data/addon -private relationships/state/has-many.ts
      (ManyRelationship, and the Graph class from graph/index.ts)
  packages/store/addon -private network/fetch-manager.ts      (FetchManager)

Conventions of the embedding:
  JavaScript objects used as string-keyed dictionaries are embedded as
  association lists `List (String × α)` whose keys are unique (as they are for
  every JS object).  `obj[k]` is `alookup`, `obj[k] = v` is `aset` (replacing
  in place, preserving key order, appending new keys last, exactly as JS
  property update/insertion does), `delete obj[k]` is `aremove`, and
  `Object.assign(target, src)` is `aassign`.  `undefined` is `Option.none`.
  The nullable lazily-materialized buckets of RecordDataDefault
  (`__attributes` etc., whose getters replace `null` by a fresh empty object)
  are `Option (List (String × α))`; reading through a getter materializes the
  bucket, which the embedded operations reproduce.
  Promises are identified by allocation order (a `Nat` id); settling a promise
  is recorded in a ledger where only the first settlement of a promise counts,
  as for JS promises.
-/

/-- A stable record identifier {type, id, lid}. Identifiers are interned
(at most one per logical record), so value equality coincides with the JS
identity equality used by the source. `ityp`/`iid` stand for the source's
`type`/`id` fields. -/
structure StableRecordIdentifier where
  ityp : String
  iid : Option String
  lid : String
deriving DecidableEq, Repr

/-! Association-list primitives for JS objects. -/

/-- Reading a property: `obj[k]`, `none` for `undefined`. -/
def alookup {α : Type} : List (String × α) → String → Option α
  | [], _ => none
  | p :: rest, k => if p.1 == k then some p.2 else alookup rest k

/-- Writing a property: `obj[k] = v`; replaces the existing entry in place or
appends a new key at the end, as JS objects do. -/
def aset {α : Type} : List (String × α) → String → α → List (String × α)
  | [], k, v => [(k, v)]
  | p :: rest, k, v => if p.1 == k then (k, v) :: rest else p :: aset rest k v

/-- Deleting a property: `delete obj[k]` (JS objects have unique keys, so a
key-filter is the same operation). -/
def aremove {α : Type} (l : List (String × α)) (k : String) : List (String × α) :=
  l.filter (fun p => !(p.1 == k))

/-- Merging: `Object.assign(target, updates)` — later keys of `updates`
override earlier ones and the target's. -/
def aassign {α : Type} (l updates : List (String × α)) : List (String × α) :=
  updates.foldl (fun acc p => aset acc p.1 p.2) l

/-- First-some of two options (JS `a !== undefined ? a : b`). -/
def oalt {α : Type} : Option α → Option α → Option α
  | some x, _ => some x
  | none, b => b

/-! Record cache: `RecordDataDefault` of record-data.ts, restricted to the
attribute ledger, the new/deleted flags and the error ledger, with the
notifications it emits recorded as an event trace.  Type parameters: `α` is
the attribute-value type, `ε` the validation-error type, `ρ` the
relationship-payload type. -/

/-- A notification emitted through the store wrapper, or a graph push issued
by `_setupRelationships`. -/
inductive RDEvent (ρ : Type) where
  | stateChange
  | propertyChange (key : Option String)
  | errorsChange
  | graphPush (record : StableRecordIdentifier) (field : String) (value : ρ)
deriving DecidableEq, Repr

/-- The attribute-relevant state of a `RecordDataDefault` instance.  The three
buckets `__attributes` (dirty), `__inFlightAttributes`, `__data` (confirmed)
are `none` when the source holds `null`. -/
structure RecordDataState (α ε : Type) where
  identifier : StableRecordIdentifier
  isNew : Bool
  isDeleted : Bool
  attributes : Option (List (String × α))
  inFlightAttributes : Option (List (String × α))
  data : Option (List (String × α))
  errors : Option (List ε)
deriving DecidableEq

/-- A just-constructed record data (constructor + `reset()`). -/
def RecordDataState.fresh {α ε : Type} (identifier : StableRecordIdentifier) : RecordDataState α ε :=
  { identifier := identifier, isNew := false, isDeleted := false,
    attributes := none, inFlightAttributes := none, data := none, errors := none }

/-- `clientDidCreate()` — marks the record as client-created. -/
def RecordDataState.clientDidCreate {α ε : Type} (s : RecordDataState α ε) : RecordDataState α ε :=
  { s with isNew := true }

/-- `getAttr(key)` — dirty bucket first, then in-flight, then confirmed. -/
def RecordDataState.getAttr {α ε : Type} (s : RecordDataState α ε) (key : String) : Option α :=
  match alookup (s.attributes.getD []) key with
  | some v => some v
  | none =>
    match alookup (s.inFlightAttributes.getD []) key with
    | some v => some v
    | none => alookup (s.data.getD []) key

/-- `hasChangedAttributes()` — `__attributes !== null && Object.keys(__attributes).length > 0`. -/
def RecordDataState.hasChangedAttributes {α ε : Type} (s : RecordDataState α ε) : Bool :=
  match s.attributes with
  | none => false
  | some attrs => !attrs.isEmpty

/-- `getErrors()` — `this._errors || []`. -/
def RecordDataState.getErrors {α ε : Type} (s : RecordDataState α ε) : List ε :=
  s.errors.getD []

/-- The `originalValue` computed inside `setDirtyAttribute`: the in-flight
value when the key is in flight, else the confirmed value. -/
def RecordDataState.originalValueFor {α ε : Type} (s : RecordDataState α ε) (key : String) : Option α :=
  match alookup (s.inFlightAttributes.getD []) key with
  | some w => some w
  | none => alookup (s.data.getD []) key

/-- `setDirtyAttribute(key, value)` — notifies, writes the dirty bucket, and
removes the entry again when the value equals the key's original (in-flight if
present, else confirmed).  The `data` bucket is only materialized on the
branch that reads it, as in the source. -/
def RecordDataState.setDirtyAttribute {α ε ρ : Type} [DecidableEq α] (s : RecordDataState α ε)
    (key : String) (value : α) : RecordDataState α ε × List (RDEvent ρ) :=
  let events : List (RDEvent ρ) := [RDEvent.propertyChange (some key)]
  let attrs := aset (s.attributes.getD []) key value
  let inFlight := s.inFlightAttributes.getD []
  match alookup inFlight key with
  | some originalValue =>
    ({ s with
        attributes := some (if value = originalValue then aremove attrs key else attrs),
        inFlightAttributes := some inFlight }, events)
  | none =>
    let dataBucket := s.data.getD []
    ({ s with
        attributes := some (if alookup dataBucket key = some value then aremove attrs key else attrs),
        inFlightAttributes := some inFlight,
        data := some dataBucket }, events)

/-- `willCommit()` — dirty bucket moves wholesale to in-flight. -/
def RecordDataState.willCommit {α ε : Type} (s : RecordDataState α ε) : RecordDataState α ε :=
  { s with inFlightAttributes := some (s.attributes.getD []), attributes := none }

/-- `commitWasRejected(identifier?, errors?)` — every in-flight key whose key
is not already dirty moves back to the dirty bucket, in-flight is cleared,
a supplied errors list is retained, and an errors-change notification is
emitted. -/
def RecordDataState.commitWasRejected {α ε ρ : Type} (s : RecordDataState α ε)
    (errors : Option (List ε)) : RecordDataState α ε × List (RDEvent ρ) :=
  let inFlight := s.inFlightAttributes.getD []
  let attrs' :=
    if !inFlight.isEmpty then
      some (inFlight.foldl
        (fun acc p => if (alookup acc p.1).isNone then aset acc p.1 p.2 else acc)
        (s.attributes.getD []))
    else s.attributes
  ({ s with
      attributes := attrs',
      inFlightAttributes := none,
      errors := match errors with | some e => some e | none => s.errors },
   [RDEvent.errorsChange])

/-- `_changedKeys(updates)` — keys of the pushed payload that are not shadowed
by a dirty entry and whose pushed value differs from the current server truth
(confirmed overridden by in-flight). -/
def RecordDataState.changedKeysOf {α ε : Type} [DecidableEq α] (s : RecordDataState α ε)
    (updates : Option (List (String × α))) : List String :=
  match updates with
  | none => []
  | some upd =>
    let hasAttrs := s.hasChangedAttributes
    let attrs := s.attributes.getD []
    let original := aassign (aassign [] (s.data.getD [])) (s.inFlightAttributes.getD [])
    (upd.filter (fun p =>
      !(hasAttrs && (alookup attrs p.1).isSome) && !(alookup original p.1 == some p.2))).map Prod.fst

/-- `_updateChangedAttributes()` — recomputes `changedAttributes()` (pairs of
confirmed value and merged in-flight+dirty value per merged key) against the
already-updated `_data`, deletes every dirty entry whose confirmed value now
equals its merged value, and notifies every merged key.  The deletion
condition depends only on the key, so it is a key-filter over the dirty
bucket. -/
def RecordDataState.updateChangedAttributes {α ε ρ : Type} [DecidableEq α]
    (s : RecordDataState α ε) : RecordDataState α ε × List (RDEvent ρ) :=
  let attrs := s.attributes.getD []
  let inFlight := s.inFlightAttributes.getD []
  let dataBucket := s.data.getD []
  let newData := aassign (aassign [] inFlight) attrs
  let changedAttributeNames := newData.map Prod.fst
  let attrs' := attrs.filter (fun p => !(alookup dataBucket p.1 == alookup newData p.1))
  ({ s with attributes := some attrs', inFlightAttributes := some inFlight, data := some dataBucket },
   changedAttributeNames.map (fun k => RDEvent.propertyChange (some k)))

/-- A JSON:API resource payload restricted to the parts `pushData` reads. -/
structure JsonApiResource (α ρ : Type) where
  attributes : Option (List (String × α))
  relationships : Option (List (String × ρ))
deriving DecidableEq

/-- `_setupRelationships(data)` — iterates the relationship SCHEMA keys (not
the payload keys) and issues one graph `updateRelationship` push per declared
key present in the payload; undeclared payload keys are silently ignored.
Relationship payload values are objects, hence truthy, so presence in the
association list is the source's truthiness test. -/
def setupRelationshipsEvents {α ε ρ : Type} (relationshipsDefinition : List String)
    (s : RecordDataState α ε) (relationships : List (String × ρ)) : List (RDEvent ρ) :=
  relationshipsDefinition.filterMap (fun relationshipName =>
    (alookup relationships relationshipName).map
      (fun relationshipData => RDEvent.graphPush s.identifier relationshipName relationshipData))

/-- Result of `pushData`: the updated cache, the emitted notifications in
order, and the changed-key list when requested. -/
structure PushDataResult (α ε ρ : Type) where
  state : RecordDataState α ε
  events : List (RDEvent ρ)
  changedKeys : Option (List String)
deriving DecidableEq

/-- `pushData(data, calculateChange)` — clears the new flag (notifying a state
change first), optionally diffs, merges the payload attributes into `_data`,
cleans up the dirty bucket if one exists, forwards declared relationship
payloads to the graph, and notifies the changed keys.
`relationshipsDefinition` is the store wrapper's
`relationshipsDefinitionFor(modelName)` key list (an external collaborator). -/
def RecordDataState.pushData {α ε ρ : Type} [DecidableEq α] (relationshipsDefinition : List String)
    (s : RecordDataState α ε) (d : JsonApiResource α ρ) (calculateChange : Bool) :
    PushDataResult α ε ρ :=
  let stateStep :=
    if s.isNew then ({ s with isNew := false }, ([RDEvent.stateChange] : List (RDEvent ρ)))
    else (s, [])
  let s0 := stateStep.1
  let changedKeys : Option (List String) :=
    if calculateChange then some (s0.changedKeysOf d.attributes) else none
  let s1 := { s0 with data := some (aassign (s0.data.getD []) (d.attributes.getD [])) }
  let updateStep :=
    if s1.attributes.isSome then s1.updateChangedAttributes
    else (s1, ([] : List (RDEvent ρ)))
  let relationshipEvents :=
    match d.relationships with
    | some rels => setupRelationshipsEvents relationshipsDefinition updateStep.1 rels
    | none => []
  let changedKeyEvents :=
    match changedKeys with
    | some ks => if !ks.isEmpty then ks.map (fun k => RDEvent.propertyChange (some k)) else []
    | none => []
  ⟨updateStep.1, stateStep.2 ++ updateStep.2 ++ relationshipEvents ++ changedKeyEvents, changedKeys⟩

/-! HasMany relationship edge: `ManyRelationship` of has-many.ts.  `M` and `L`
are the opaque `Meta` and `Links` payload types. -/

/-- The per-edge state flags (the graph -state module `RelationshipState`). -/
structure RelationshipState where
  hasReceivedData : Bool
  isEmpty : Bool
  isStale : Bool
  hasDematerializedInverse : Bool
deriving DecidableEq, Repr

/-- Modelled from the spec: `createState` lives in the graph -state module, which is
not under src/.  Per the spec, the flags of a fresh edge describe a
never-loaded relationship: `hasReceivedData` gates the `data` key of
`getData()` and distinguishes never-loaded from loaded-and-empty, so it starts
false; the edge starts empty, not stale, with no dematerialized inverse. -/
def createState : RelationshipState :=
  { hasReceivedData := false, isEmpty := true, isStale := false, hasDematerializedInverse := false }

/-- The membership and payload state of one hasMany edge.  `_state` is the
lazily-created flag record (its getter substitutes `createState`). -/
structure ManyRelationship (M L : Type) where
  identifier : StableRecordIdentifier
  transactionRef : Nat
  members : List StableRecordIdentifier
  canonicalMembers : List StableRecordIdentifier
  meta : Option M
  links : Option L
  canonicalState : List StableRecordIdentifier
  currentState : List StableRecordIdentifier
  _state : Option RelationshipState
deriving DecidableEq

/-- The `state` getter: the stored flags, or `createState` when not yet
materialized. -/
def ManyRelationship.state {M L : Type} (r : ManyRelationship M L) : RelationshipState :=
  r._state.getD createState

/-- One walk of `forAllMembers`'s loops: visits each entry whose `lid` has not
been seen, threading the `seen` dictionary. -/
def visitLoop : List String → List StableRecordIdentifier → List String × List StableRecordIdentifier
  | seen, [] => (seen, [])
  | seen, inverseIdentifier :: rest =>
    if seen.contains inverseIdentifier.lid then visitLoop seen rest
    else
      let r := visitLoop (inverseIdentifier.lid :: seen) rest
      (r.1, inverseIdentifier :: r.2)

/-- The list of identifiers `forAllMembers(callback)` passes to its callback,
in call order: `currentState` first, then `canonicalState`, sharing one
`seen` dictionary keyed by `lid`. -/
def ManyRelationship.forAllMembersVisits {M L : Type} (r : ManyRelationship M L) :
    List StableRecordIdentifier :=
  let firstPass := visitLoop [] r.currentState
  let secondPass := visitLoop firstPass.1 r.canonicalState
  firstPass.2 ++ secondPass.2

/-- `clear()` — empties the two member sets and the two state arrays. -/
def ManyRelationship.clear {M L : Type} (r : ManyRelationship M L) : ManyRelationship M L :=
  { r with members := [], canonicalMembers := [], currentState := [], canonicalState := [] }

/-- The JSON:API-shaped payload `getData()` returns: each key present exactly
when the source assigns it. -/
structure CollectionResourceRelationship (M L : Type) where
  data : Option (List StableRecordIdentifier)
  links : Option L
  meta : Option M
deriving DecidableEq

/-- `getData()` — the `data` key (a copy of `currentState`) only once the edge
has received data; `links`/`meta` only when non-null (objects are truthy). -/
def ManyRelationship.getData {M L : Type} (r : ManyRelationship M L) :
    CollectionResourceRelationship M L :=
  { data := if r.state.hasReceivedData then some r.currentState else none
    links := r.links
    meta := r.meta }

/-! Graph remote-operation queue: `Graph.push` / `Graph._flushRemoteQueue` of
graph/index.ts (concatenated into has-many.ts).  The per-operation edge
mutations performed by `Graph.update(op, true)` live in graph/operations/*,
which is not under src/; `update` and the update handlers read and mutate the
edges but never touch `_pushedUpdates` or `_willSyncRemote` (the only writers
of those in graph/index.ts are `push` and `_flushRemoteQueue` themselves), so
the edge component is an abstract type `E` and the effect of
`update(op, true)` an explicit function `upd`, with `_finalize`'s
transaction-ref zeroing likewise a function `fin` on `E`. -/

/-- Relationship kinds resolved by the edge-definition cache. -/
inductive RelKind where
  | belongsTo
  | hasMany
  | implicitRel
deriving DecidableEq, Repr

/-- The remote operations `Graph.push` accepts (the graph -operations module):
`updateRelationship`, `deleteRecord`, `replaceRelatedRecord`. -/
inductive RemoteRelationshipOperation (ρ : Type) where
  | deleteRecord (record : StableRecordIdentifier) (isNew : Bool)
  | replaceRelatedRecord (record : StableRecordIdentifier) (field : String)
      (value : Option StableRecordIdentifier)
  | updateRelationship (record : StableRecordIdentifier) (field : String) (value : ρ)
deriving DecidableEq, Repr

/-- The three pending remote-operation buffers `_pushedUpdates`. -/
structure PushedUpdates (ρ : Type) where
  belongsTo : List (RemoteRelationshipOperation ρ)
  hasMany : List (RemoteRelationshipOperation ρ)
  deletions : List (RemoteRelationshipOperation ρ)
deriving DecidableEq

/-- The queue-relevant part of the Graph: the schedule flag `_willSyncRemote`,
the buffers, and the abstract edge state. -/
structure GraphQueueState (E ρ : Type) where
  willSyncRemote : Bool
  pushedUpdates : PushedUpdates ρ
  edges : E
deriving DecidableEq

/-- `Graph.push(op)` — deletions and belongsTo replacements go to their fixed
buffers; other operations are buffered under the resolved kind of their edge
(`kindOf` is the edge-definition resolution `this.get(record, field)
.definition.kind`), asserting the kind is not implicit; the flag guarantees
one scheduled coalesce pass. -/
def Graph.push {E ρ : Type} (kindOf : StableRecordIdentifier → String → RelKind)
    (g : GraphQueueState E ρ) (op : RemoteRelationshipOperation ρ) :
    Except String (GraphQueueState E ρ) :=
  match op with
  | RemoteRelationshipOperation.deleteRecord _ _ =>
    Except.ok { g with
      pushedUpdates := { g.pushedUpdates with deletions := g.pushedUpdates.deletions ++ [op] },
      willSyncRemote := true }
  | RemoteRelationshipOperation.replaceRelatedRecord _ _ _ =>
    Except.ok { g with
      pushedUpdates := { g.pushedUpdates with belongsTo := g.pushedUpdates.belongsTo ++ [op] },
      willSyncRemote := true }
  | RemoteRelationshipOperation.updateRelationship record field _ =>
    match kindOf record field with
    | RelKind.implicitRel => Except.error "Cannot push a remote update for an implicit relationship"
    | RelKind.hasMany =>
      Except.ok { g with
        pushedUpdates := { g.pushedUpdates with hasMany := g.pushedUpdates.hasMany ++ [op] },
        willSyncRemote := true }
    | RelKind.belongsTo =>
      Except.ok { g with
        pushedUpdates := { g.pushedUpdates with belongsTo := g.pushedUpdates.belongsTo ++ [op] },
        willSyncRemote := true }

/-- A sequence of `Graph.push` calls within one synchronous turn. -/
def Graph.pushAll {E ρ : Type} (kindOf : StableRecordIdentifier → String → RelKind)
    (g : GraphQueueState E ρ) : List (RemoteRelationshipOperation ρ) →
    Except String (GraphQueueState E ρ)
  | [] => Except.ok g
  | op :: rest =>
    match Graph.push kindOf g op with
    | Except.error e => Except.error e
    | Except.ok g' => Graph.pushAll kindOf g' rest

/-- `Graph._flushRemoteQueue()` — early-returns unless a sync is scheduled;
otherwise drains the three buffers into locals, resets them, applies every
drained operation via `update(op, true)` in the order deletions, hasMany,
belongsTo, and finalizes the transaction.  The returned list is the trace of
`update(op, isRemote)` calls in call order. -/
def Graph.flushRemoteQueue {E ρ : Type} (upd : RemoteRelationshipOperation ρ → E → E)
    (fin : E → E) (g : GraphQueueState E ρ) :
    GraphQueueState E ρ × List (RemoteRelationshipOperation ρ × Bool) :=
  if !g.willSyncRemote then (g, [])
  else
    let ops := g.pushedUpdates.deletions ++ g.pushedUpdates.hasMany ++ g.pushedUpdates.belongsTo
    ({ willSyncRemote := false,
       pushedUpdates := { belongsTo := [], hasMany := [], deletions := [] },
       edges := fin (ops.foldl (fun e op => upd op e) g.edges) },
     ops.map (fun op => (op, true)))

/-- Deletion operations (buffered in `deletions`). -/
def isDeletionOp {ρ : Type} : RemoteRelationshipOperation ρ → Bool
  | RemoteRelationshipOperation.deleteRecord _ _ => true
  | _ => false

/-- Operations buffered in the `hasMany` buffer. -/
def isHasManyOp {ρ : Type} (kindOf : StableRecordIdentifier → String → RelKind) :
    RemoteRelationshipOperation ρ → Bool
  | RemoteRelationshipOperation.updateRelationship record field _ =>
    kindOf record field == RelKind.hasMany
  | _ => false

/-- Operations buffered in the `belongsTo` buffer. -/
def isBelongsToOp {ρ : Type} (kindOf : StableRecordIdentifier → String → RelKind) :
    RemoteRelationshipOperation ρ → Bool
  | RemoteRelationshipOperation.replaceRelatedRecord _ _ _ => true
  | RemoteRelationshipOperation.updateRelationship record field _ =>
    kindOf record field == RelKind.belongsTo
  | _ => false

/-! Graph removal: `Graph.remove` of graph/index.ts.  `unload(identifier)`
(called by `remove`) reads and mutates the per-identifier edge tables —
through `destroyRelationship`, the edge classes and
`removeCompletelyFromInverse` — but never writes `_removing` (it is only read,
by the change-notification suppression) and never deletes the removed
identifier's whole table (only `remove` and `update`'s deleteRecord case do);
its effect on the tables is therefore a function parameter `unloadFn` over the
table component, of abstract per-identifier content `T`. -/

/-- The removal-relevant part of the Graph: the single `_removing` slot and
the identifier → edge-table map (table contents abstract). -/
structure GraphRemovalState (T : Type) where
  removing : Option StableRecordIdentifier
  identifiers : List (StableRecordIdentifier × T)
deriving DecidableEq

/-- `Graph.remove(identifier)` — asserts that no removal is in progress
(`assert(..., !this._removing)`), occupies the `_removing` slot, unloads,
deletes the identifier's table, and frees the slot.  The source assertion
message interpolates both identifiers; the embedding uses a fixed message. -/
def Graph.remove {T : Type}
    (unloadFn : StableRecordIdentifier → List (StableRecordIdentifier × T) →
      List (StableRecordIdentifier × T))
    (g : GraphRemovalState T) (identifier : StableRecordIdentifier) :
    Except String (GraphRemovalState T) :=
  if g.removing.isSome then
    Except.error "Cannot remove an identifier while still removing another"
  else
    let midState : GraphRemovalState T := { g with removing := some identifier }
    let tables := unloadFn identifier midState.identifiers
    Except.ok { removing := none, identifiers := tables.filter (fun p => !(p.1 == identifier)) }

/-! Fetch manager: fetch-manager.ts. -/

/-- The only option `isSameRequest` compares is `include` (named `incl` here,
`include` being a Lean keyword). -/
structure FindOptions where
  incl : Option String
deriving DecidableEq, Repr

/-- `isSameRequest(options, reqOptions)` — `options.include === reqOptions.include`. -/
def isSameRequest (options reqOptions : FindOptions) : Bool :=
  options.incl == reqOptions.incl

/-- One entry of the pending-fetch table (resolver and trace omitted; the
promise is its allocation id). -/
structure PendingFetchItem where
  identifier : StableRecordIdentifier
  options : FindOptions
  promise : Nat
deriving DecidableEq, Repr

/-- The fetch-manager state `scheduleFetch` touches: the type-keyed
pending-fetch table and the promise allocator. -/
structure FetchManagerState where
  pendingFetch : List (String × List PendingFetchItem)
  nextPromiseId : Nat
deriving DecidableEq, Repr

/-- `getPendingFetch(identifier, options)` — finds the FIRST pending entry for
the identifier in the type's list and returns its promise only when that
entry's options match. -/
def getPendingFetch (s : FetchManagerState) (identifier : StableRecordIdentifier)
    (options : FindOptions) : Option Nat :=
  match alookup s.pendingFetch identifier.ityp with
  | none => none
  | some pendingFetches =>
    match pendingFetches.find? (fun fetch => fetch.identifier == identifier) with
    | none => none
    | some matchingPendingFetch =>
      if isSameRequest options matchingPendingFetch.options then some matchingPendingFetch.promise
      else none

/-- `scheduleFetch(identifier, options)` — reuses a matching pending promise,
otherwise allocates a fresh promise and appends a pending entry to the
identifier's type bucket (flush scheduling and the request cache are
bookkeeping outside this state). -/
def scheduleFetch (s : FetchManagerState) (identifier : StableRecordIdentifier)
    (options : FindOptions) : Nat × FetchManagerState :=
  match getPendingFetch s identifier options with
  | some pendingFetch => (pendingFetch, s)
  | none =>
    let promiseId := s.nextPromiseId
    let pendingFetchItem : PendingFetchItem := ⟨identifier, options, promiseId⟩
    let fetchesForType := (alookup s.pendingFetch identifier.ityp).getD []
    (promiseId,
      { pendingFetch := aset s.pendingFetch identifier.ityp (fetchesForType ++ [pendingFetchItem]),
        nextPromiseId := promiseId + 1 })

/-! Coalesced-fetch response handling: `handleFoundRecords` /
`rejectFetchedItems` of fetch-manager.ts.  Resolvers are external promise
state; the embedding returns the settlement ledger keyed by the seeking id
(first settlement of a promise wins, as for JS promises).  `σ` is the type of
the pending items held in `seeking` (only key membership is read). -/

/-- A primary-data member of a coalesced response. -/
structure ResourceObject (ρ : Type) where
  rtyp : String
  rid : String
  body : ρ
deriving DecidableEq, Repr

/-- The normalized `findMany` response document. -/
structure CollectionResourceDocument (ρ : Type) where
  data : List (ResourceObject ρ)
  included : Option (List (ResourceObject ρ))
deriving DecidableEq

/-- The fields of a `Snapshot` this code reads; `sid` is `snapshot.id`, a
string (`assertIsString` rules out null ids for fetches). -/
structure SnapshotStub where
  modelName : String
  sid : String
deriving DecidableEq, Repr

/-- The settlement of one pending fetch's resolver. -/
inductive FetchOutcome (ρ : Type) where
  | resolved (data : ResourceObject ρ) (included : List (ResourceObject ρ))
  | rejected (message : String)
deriving DecidableEq

/-- Settle a promise: only the first settlement counts. -/
def settle {ρ : Type} (acc : List (String × FetchOutcome ρ)) (k : String) (o : FetchOutcome ρ) :
    List (String × FetchOutcome ρ) :=
  if (alookup acc k).isSome then acc else acc ++ [(k, o)]

/-- The not-found rejection message (the source wraps the record name in
quotes; the text names the same record). -/
def notFoundMessage (modelName sid : String) : String :=
  "Expected <" ++ modelName ++ ":" ++ sid ++
    "> to be present in the adapter provided payload, but it was not found."

/-- The resolve loop of `handleFoundRecords`: for each payload member whose id
has a seeking pair, resolve that pair with the payload and the shared
included list. -/
def resolveFound {σ ρ : Type} (seeking : List (String × σ)) (included : List (ResourceObject ρ)) :
    List (String × FetchOutcome ρ) → List (ResourceObject ρ) → List (String × FetchOutcome ρ)
  | settled, [] => settled
  | settled, payload :: rest =>
    resolveFound seeking included
      (match alookup seeking payload.rid with
       | some _ => settle settled payload.rid (FetchOutcome.resolved payload included)
       | none => settled) rest

/-- `rejectFetchedItems(seeking, snapshots, error?)` — rejects each snapshot's
pair (when one exists) with the supplied error or the per-record not-found
error. -/
def rejectFetchedItems {σ ρ : Type} (seeking : List (String × σ)) (error? : Option String) :
    List (String × FetchOutcome ρ) → List SnapshotStub → List (String × FetchOutcome ρ)
  | settled, [] => settled
  | settled, snapshot :: rest =>
    rejectFetchedItems seeking error?
      (match alookup seeking snapshot.sid with
       | some _ =>
         settle settled snapshot.sid
           (FetchOutcome.rejected
             (error?.getD (notFoundMessage snapshot.modelName snapshot.sid)))
       | none => settled) rest

/-- `handleFoundRecords(seeking, coalescedPayload, expectedSnapshots)` —
resolves every seeking pair whose id occurs in the primary data (with the
response's included concatenated with the primary data, as the source
computes identically on every iteration), then rejects the expected snapshots
whose ids are missing from the primary data, individually, with the not-found
error. -/
def handleFoundRecords {σ ρ : Type} (seeking : List (String × σ))
    (coalescedPayload : CollectionResourceDocument ρ) (expectedSnapshots : List SnapshotStub) :
    List (String × FetchOutcome ρ) :=
  let payloads := coalescedPayload.data
  let included := (coalescedPayload.included.getD []) ++ payloads
  let settled := resolveFound seeking included [] payloads
  let found := payloads.map (fun p => p.rid)
  let missingSnapshots := expectedSnapshots.filter (fun sn => !(found.contains sn.sid))
  if missingSnapshots.isEmpty then settled
  else rejectFetchedItems seeking none settled missingSnapshots

/-! Concrete sample data used by witnesses and counterexamples. -/

/-- A sample identifier. -/
def identA : StableRecordIdentifier := ⟨"post", some "1", "lid-post-1"⟩

/-- A second sample identifier. -/
def identB : StableRecordIdentifier := ⟨"comment", some "1", "lid-comment-1"⟩

/-- A third sample identifier. -/
def identC : StableRecordIdentifier := ⟨"comment", some "2", "lid-comment-2"⟩

/-- A concrete cache mid-save: key "a" re-dirtied while "a" and "b" are in flight. -/
def sampleCacheC5 : RecordDataState String String :=
  { identifier := identA, isNew := false, isDeleted := false,
    attributes := some [("a", "1")], inFlightAttributes := some [("a", "2"), ("b", "3")],
    data := some [], errors := none }

/-- A concrete loaded hasMany edge. -/
def sampleEdgeLoaded : ManyRelationship Unit Unit :=
  { identifier := identA, transactionRef := 0,
    members := [identB], canonicalMembers := [identB],
    meta := none, links := none,
    canonicalState := [identB], currentState := [identB],
    _state := some { hasReceivedData := true, isEmpty := false, isStale := false,
                     hasDematerializedInverse := false } }

/-- A concrete hasMany edge whose current and canonical membership overlap. -/
def sampleEdgeOverlap : ManyRelationship Unit Unit :=
  { identifier := identA, transactionRef := 0,
    members := [identB, identC], canonicalMembers := [identC],
    meta := none, links := none,
    canonicalState := [identC, identA], currentState := [identB, identC, identB],
    _state := none }

/-- A concrete clean cache with one confirmed attribute. -/
def sampleCacheC2 : RecordDataState String String :=
  { identifier := identA, isNew := false, isDeleted := false,
    attributes := some [], inFlightAttributes := none,
    data := some [("name", "u")], errors := none }

/-- A concrete edge-definition resolution: `comments` is a hasMany, anything
else a belongsTo. -/
def sampleKindOf : StableRecordIdentifier → String → RelKind :=
  fun _ field => if field == "comments" then RelKind.hasMany else RelKind.belongsTo

/-- A concrete batch of remote operations pushed in one turn. -/
def sampleOps : List (RemoteRelationshipOperation String) :=
  [RemoteRelationshipOperation.deleteRecord identC true,
   RemoteRelationshipOperation.updateRelationship identA "comments" "x",
   RemoteRelationshipOperation.replaceRelatedRecord identB "post" (some identA),
   RemoteRelationshipOperation.updateRelationship identB "post" "y"]

/-- The queue state after pushing `sampleOps` from a flushed graph. -/
def sampleQueueAfterPush : GraphQueueState Unit String :=
  { willSyncRemote := true,
    pushedUpdates :=
      { belongsTo := [RemoteRelationshipOperation.replaceRelatedRecord identB "post" (some identA),
                      RemoteRelationshipOperation.updateRelationship identB "post" "y"],
        hasMany := [RemoteRelationshipOperation.updateRelationship identA "comments" "x"],
        deletions := [RemoteRelationshipOperation.deleteRecord identC true] },
    edges := () }

/-- A concrete seeking table for a coalesced group (values are slot numbers). -/
def sampleSeeking : List (String × Nat) := [("1", 0), ("2", 1)]

/-- A concrete coalesced response payload holding only record id "1". -/
def samplePayloadDoc : CollectionResourceDocument String :=
  { data := [{ rtyp := "comment", rid := "1", body := "b1" }], included := none }

/-- The expected snapshots of that coalesced group. -/
def sampleExpected : List SnapshotStub :=
  [{ modelName := "comment", sid := "1" }, { modelName := "comment", sid := "2" }]

/-! Association-list lemmas. -/

theorem oalt_none_right {α : Type} (a : Option α) : oalt a none = a := by
  cases a <;> rfl

theorem oalt_assoc {α : Type} (a b c : Option α) : oalt (oalt a b) c = oalt a (oalt b c) := by
  cases a <;> rfl

theorem alookup_append {α : Type} (l₁ l₂ : List (String × α)) (k : String) :
    alookup (l₁ ++ l₂) k = oalt (alookup l₁ k) (alookup l₂ k) := by
  induction l₁ with
  | nil => rfl
  | cons p rest ih =>
    by_cases h : p.1 = k
    · simp [alookup, h, oalt]
    · simp [alookup, h, ih]

theorem alookup_aset_self {α : Type} (l : List (String × α)) (k : String) (v : α) :
    alookup (aset l k v) k = some v := by
  induction l with
  | nil => simp [aset, alookup]
  | cons p rest ih =>
    by_cases h : p.1 = k
    · simp [aset, alookup, h]
    · simp [aset, alookup, h, ih]

theorem alookup_aset_ne {α : Type} (l : List (String × α)) {k k' : String} (v : α)
    (h : ¬ k' = k) : alookup (aset l k v) k' = alookup l k' := by
  have h' : ¬ k = k' := fun hh => h (Eq.symm hh)
  induction l with
  | nil => simp [aset, alookup, h']
  | cons p rest ih =>
    by_cases hp : p.1 = k
    · subst hp
      simp [aset, alookup, h']
    · simp [aset, alookup, hp, ih]

theorem alookup_eq_none_iff {α : Type} (l : List (String × α)) (k : String) :
    alookup l k = none ↔ k ∉ l.map Prod.fst := by
  induction l with
  | nil => simp [alookup]
  | cons p rest ih =>
    by_cases h : p.1 = k
    · subst h
      simp [alookup]
    · have h' : ¬ k = p.1 := fun hh => h (Eq.symm hh)
      simp [alookup, h, ih, h']

theorem alookup_filter_key {α : Type} (l : List (String × α)) (q : String → Bool) (k : String) :
    alookup (l.filter (fun p => q p.1)) k = if q k then alookup l k else none := by
  induction l with
  | nil => simp [alookup]
  | cons p rest ih =>
    by_cases hq : q p.1
    · by_cases h : p.1 = k
      · subst h
        simp [List.filter_cons, hq, alookup]
      · simp [List.filter_cons, hq, alookup, h, ih]
    · by_cases h : p.1 = k
      · subst h
        simp [List.filter_cons, hq, alookup, ih]
      · simp [List.filter_cons, hq, alookup, h, ih]

theorem keys_aset {α : Type} (l : List (String × α)) (k : String) (v : α) :
    (aset l k v).map Prod.fst
      = if k ∈ l.map Prod.fst then l.map Prod.fst else l.map Prod.fst ++ [k] := by
  induction l with
  | nil => simp [aset]
  | cons p rest ih =>
    by_cases h : p.1 = k
    · subst h
      simp [aset]
    · have h' : ¬ k = p.1 := fun hh => h (Eq.symm hh)
      by_cases hm : k ∈ rest.map Prod.fst
      · simp [aset, h, ih, hm, h']
      · simp [aset, h, ih, hm, h']

theorem nodupkeys_aset {α : Type} {l : List (String × α)} (h : (l.map Prod.fst).Nodup)
    (k : String) (v : α) : ((aset l k v).map Prod.fst).Nodup := by
  rw [keys_aset]
  by_cases hm : k ∈ l.map Prod.fst
  · simpa [hm] using h
  · simp only [hm, if_false, List.nodup_append]
    refine ⟨h, List.nodup_singleton k, ?_⟩
    intro a ha hak
    simp only [List.mem_singleton] at hak
    exact hm (hak ▸ ha)

theorem alookup_reverse {α : Type} {l : List (String × α)} (h : (l.map Prod.fst).Nodup)
    (k : String) : alookup l.reverse k = alookup l k := by
  induction l with
  | nil => rfl
  | cons p rest ih =>
    have hne : p.1 ∉ rest.map Prod.fst := (List.nodup_cons.mp h).1
    have hrest : (rest.map Prod.fst).Nodup := (List.nodup_cons.mp h).2
    rw [List.reverse_cons, alookup_append, ih hrest]
    by_cases hk : p.1 = k
    · subst hk
      have hnone : alookup rest p.1 = none := (alookup_eq_none_iff rest p.1).mpr hne
      simp [hnone, alookup, oalt]
    · simp [alookup, hk, oalt_none_right]

theorem alookup_aassign {α : Type} (l u : List (String × α)) (k : String) :
    alookup (aassign l u) k = oalt (alookup u.reverse k) (alookup l k) := by
  induction u generalizing l with
  | nil => simp [aassign, alookup, oalt]
  | cons p rest ih =>
    have hstep : aassign l (p :: rest) = aassign (aset l p.1 p.2) rest := rfl
    rw [hstep, ih, List.reverse_cons, alookup_append]
    by_cases h : p.1 = k
    · subst h
      rw [alookup_aset_self]
      cases alookup rest.reverse p.1 <;> simp [alookup, oalt]
    · rw [alookup_aset_ne l p.2 (fun hh => h (Eq.symm hh))]
      simp [alookup, h, oalt_none_right]

theorem alookup_commit_merge {α : Type} (attrs inFlight : List (String × α)) (k : String) :
    alookup (inFlight.foldl
        (fun acc p => if (alookup acc p.1).isNone then aset acc p.1 p.2 else acc) attrs) k
      = oalt (alookup attrs k) (alookup inFlight k) := by
  induction inFlight generalizing attrs with
  | nil => simp [alookup, oalt_none_right]
  | cons p rest ih =>
    rw [List.foldl_cons, ih]
    by_cases h : p.1 = k
    · subst h
      cases hA : alookup attrs p.1 with
      | some v => simp [hA, alookup, oalt]
      | none => simp [hA, alookup_aset_self, alookup, oalt]
    · cases hA : alookup attrs p.1 with
      | some v => simp [hA, alookup, h, oalt]
      | none => simp [hA, alookup_aset_ne attrs p.2 (fun hh => h (Eq.symm hh)), alookup, h, oalt]

/-! Claim C5. -/

/-- C5: for every record cache in the in-flight phase, `commitWasRejected`
moves every in-flight key back into the dirty bucket except keys the user has
re-dirtied (a key already dirty keeps its user value), clears
`_inFlightAttributes`, and a supplied errors list is retained and returned by
`getErrors()`. -/
theorem commitWasRejected_restores_dirty {α ε ρ : Type} (s : RecordDataState α ε)
    (errors : Option (List ε)) :
    (∀ k, alookup (((RecordDataState.commitWasRejected (ρ := ρ) s errors).1).attributes.getD []) k
        = oalt (alookup (s.attributes.getD []) k) (alookup (s.inFlightAttributes.getD []) k))
    ∧ ((RecordDataState.commitWasRejected (ρ := ρ) s errors).1).inFlightAttributes = none
    ∧ (∀ e, errors = some e →
        ((RecordDataState.commitWasRejected (ρ := ρ) s errors).1).getErrors = e) := by
  refine ⟨?_, ?_, ?_⟩
  · intro k
    by_cases hIF : (s.inFlightAttributes.getD []).isEmpty
    · have hnil : s.inFlightAttributes.getD [] = [] := by
        cases hl : s.inFlightAttributes.getD [] with
        | nil => rfl
        | cons a t => rw [hl] at hIF; simp [List.isEmpty] at hIF
      simp [RecordDataState.commitWasRejected, hIF, hnil, alookup, oalt_none_right]
    · simp [RecordDataState.commitWasRejected, hIF, alookup_commit_merge]
  · by_cases hIF : (s.inFlightAttributes.getD []).isEmpty <;>
      simp [RecordDataState.commitWasRejected, hIF]
  · intro e he
    by_cases hIF : (s.inFlightAttributes.getD []).isEmpty <;>
      simp [RecordDataState.commitWasRejected, hIF, he, RecordDataState.getErrors]

/-- Witness for C5: at a concrete mid-save cache, the re-dirtied key "a" keeps
the user value, the in-flight-only key "b" moves back to dirty, in-flight is
cleared, and the supplied errors list is returned by `getErrors`. -/
theorem commitWasRejected_restores_dirty_witness :
    (alookup (((RecordDataState.commitWasRejected (ρ := String) sampleCacheC5
        (some ["err"])).1).attributes.getD []) "a" = some "1")
    ∧ (alookup (((RecordDataState.commitWasRejected (ρ := String) sampleCacheC5
        (some ["err"])).1).attributes.getD []) "b" = some "3")
    ∧ ((RecordDataState.commitWasRejected (ρ := String) sampleCacheC5
        (some ["err"])).1).inFlightAttributes = none
    ∧ ((RecordDataState.commitWasRejected (ρ := String) sampleCacheC5
        (some ["err"])).1).getErrors = ["err"] := by
  have h := commitWasRejected_restores_dirty (ρ := String) sampleCacheC5 (some ["err"])
  refine ⟨?_, ?_, h.2.1, h.2.2 ["err"] rfl⟩
  · rw [h.1 "a"]; decide
  · rw [h.1 "b"]; decide

/-! Claim C7. -/

/-- C7: for every hasMany edge, `getData()` has a `data` key exactly when
`hasReceivedData` is true; when present it is a copy of `currentState`; the
`links` and `meta` keys are present exactly when the edge's links/meta are
non-null. -/
theorem getData_gated_by_hasReceivedData {M L : Type} (r : ManyRelationship M L) :
    (r.getData.data ≠ none ↔ r.state.hasReceivedData = true)
    ∧ (r.state.hasReceivedData = true → r.getData.data = some r.currentState)
    ∧ r.getData.links = r.links ∧ (r.getData.links ≠ none ↔ r.links ≠ none)
    ∧ r.getData.meta = r.meta ∧ (r.getData.meta ≠ none ↔ r.meta ≠ none) := by
  refine ⟨?_, ?_, rfl, Iff.rfl, rfl, Iff.rfl⟩
  · by_cases h : r.state.hasReceivedData <;> simp [ManyRelationship.getData, h]
  · intro h
    simp [ManyRelationship.getData, h]

/-- Witness for C7 at a concrete loaded edge. -/
theorem getData_gated_by_hasReceivedData_witness :
    sampleEdgeLoaded.getData.data = some [identB]
    ∧ (sampleEdgeLoaded.getData.data ≠ none ↔ sampleEdgeLoaded.state.hasReceivedData = true) := by
  have h := getData_gated_by_hasReceivedData sampleEdgeLoaded
  refine ⟨?_, h.1⟩
  rw [h.2.1 (by decide)]
  decide

/-! Claim C9. -/

/-- C9: `clear()` empties exactly the four membership fields and changes
nothing else — meta, links, the lazily-created state flags, the transaction
ref and the identifier keep their prior values — so a cleared edge that had
received data still returns a `data` key (now an empty array) from
`getData()`. -/
theorem clear_frame {M L : Type} (r : ManyRelationship M L) :
    (r.clear.members = [] ∧ r.clear.canonicalMembers = []
      ∧ r.clear.currentState = [] ∧ r.clear.canonicalState = [])
    ∧ (r.clear.meta = r.meta ∧ r.clear.links = r.links ∧ r.clear._state = r._state
      ∧ r.clear.state = r.state ∧ r.clear.transactionRef = r.transactionRef
      ∧ r.clear.identifier = r.identifier)
    ∧ (r.state.hasReceivedData = true → r.clear.getData.data = some []) := by
  refine ⟨⟨rfl, rfl, rfl, rfl⟩, ⟨rfl, rfl, rfl, rfl, rfl, rfl⟩, ?_⟩
  intro h
  have h' : r.clear.state.hasReceivedData = true := h
  show (if r.clear.state.hasReceivedData then some r.clear.currentState else none) = some []
  rw [h']
  simp [ManyRelationship.clear]

/-- Witness for C9 at a concrete loaded edge: after `clear()` the edge still
reports a `data` key, now empty, and keeps its flags. -/
theorem clear_frame_witness :
    sampleEdgeLoaded.clear.getData.data = some []
    ∧ sampleEdgeLoaded.clear._state = sampleEdgeLoaded._state := by
  have h := clear_frame sampleEdgeLoaded
  exact ⟨h.2.2 (by decide), h.2.1.2.2.1⟩

/-! Helper lemmas about `setDirtyAttribute` and `pushData`. -/

theorem setDirtyAttribute_state_of_ne {α ε ρ : Type} [DecidableEq α] (s : RecordDataState α ε)
    (key : String) (v : α) (hOrig : ¬ s.originalValueFor key = some v) :
    ((RecordDataState.setDirtyAttribute (ρ := ρ) s key v).1).attributes
        = some (aset (s.attributes.getD []) key v)
    ∧ ((RecordDataState.setDirtyAttribute (ρ := ρ) s key v).1).inFlightAttributes.getD []
        = s.inFlightAttributes.getD []
    ∧ ((RecordDataState.setDirtyAttribute (ρ := ρ) s key v).1).data.getD [] = s.data.getD []
    ∧ ((RecordDataState.setDirtyAttribute (ρ := ρ) s key v).1).isNew = s.isNew := by
  unfold RecordDataState.originalValueFor at hOrig
  rcases hIF : alookup (s.inFlightAttributes.getD []) key with _ | w
  · rw [hIF] at hOrig
    simp [RecordDataState.setDirtyAttribute, hIF, hOrig]
  · rw [hIF] at hOrig
    have hvw : ¬ v = w := fun hh => hOrig (by rw [hh])
    simp [RecordDataState.setDirtyAttribute, hIF, hvw]

theorem pushData_state_of_isSome {α ε ρ : Type} [DecidableEq α] (relDefs : List String)
    (s : RecordDataState α ε) (d : JsonApiResource α ρ) (cc : Bool)
    (h : s.attributes.isSome = true) :
    (RecordDataState.pushData relDefs s d cc).state =
      { s with
        isNew := false,
        attributes := some ((s.attributes.getD []).filter (fun p =>
          !(alookup (aassign (s.data.getD []) (d.attributes.getD [])) p.1
            == alookup (aassign (aassign [] (s.inFlightAttributes.getD []))
                 (s.attributes.getD [])) p.1))),
        inFlightAttributes := some (s.inFlightAttributes.getD []),
        data := some (aassign (s.data.getD []) (d.attributes.getD [])) } := by
  obtain ⟨l, hl⟩ := Option.isSome_iff_exists.mp h
  obtain ⟨sid, sNew, sDel, sAttrs, sInF, sData, sErrs⟩ := s
  simp only at hl
  subst hl
  cases sNew <;>
    simp [RecordDataState.pushData, RecordDataState.updateChangedAttributes]

theorem pushData_isNew_false {α ε ρ : Type} [DecidableEq α] (relDefs : List String)
    (s : RecordDataState α ε) (d : JsonApiResource α ρ) (cc : Bool) :
    (RecordDataState.pushData relDefs s d cc).state.isNew = false := by
  obtain ⟨sid, sNew, sDel, sAttrs, sInF, sData, sErrs⟩ := s
  cases sNew <;> cases sAttrs <;>
    simp [RecordDataState.pushData, RecordDataState.updateChangedAttributes]

theorem getAttr_eq_oalt {α ε : Type} (t : RecordDataState α ε) (k : String) :
    t.getAttr k = oalt (alookup (t.attributes.getD []) k)
      (oalt (alookup (t.inFlightAttributes.getD []) k) (alookup (t.data.getD []) k)) := by
  rcases hA : alookup (t.attributes.getD []) k with _ | va <;>
    rcases hB : alookup (t.inFlightAttributes.getD []) k with _ | vb <;>
      simp [RecordDataState.getAttr, hA, hB, oalt]

/-! Claim C2. -/

/-- C2 counterexample: from a fresh cache, push name=u, dirty name to w, start a save
(w moves in flight), re-dirty name to v (v differs from the original, which is the
in-flight w), then push data with name=v.  The push updates `_data.name` from u to v,
yet `getAttr "name"` changes from v to the in-flight w: the dirty entry is dropped by
`_updateChangedAttributes` because the confirmed value now equals it, and the in-flight
bucket shines through. -/
theorem getAttr_pushData_counterexample :
    let s1 := (RecordDataState.pushData (ρ := String) []
      (RecordDataState.fresh (α := String) (ε := String) identA)
      ⟨some [("name", "u")], none⟩ false).state
    let s2 := (RecordDataState.setDirtyAttribute (ρ := String) s1 "name" "w").1
    let s3 := RecordDataState.willCommit s2
    let s4 := (RecordDataState.setDirtyAttribute (ρ := String) s3 "name" "v").1
    let s5 := (RecordDataState.pushData (ρ := String) [] s4 ⟨some [("name", "v")], none⟩ false).state
    RecordDataState.originalValueFor s3 "name" = some "w"
    ∧ RecordDataState.getAttr s4 "name" = some "v"
    ∧ alookup (s4.data.getD []) "name" = some "u"
    ∧ alookup (s5.data.getD []) "name" = some "v"
    ∧ RecordDataState.getAttr s5 "name" = some "w"
    ∧ (RecordDataState.getAttr s5 "name" == some "v") = false := by
  decide

/-- C2 (amended): (i) getAttr precedence: a key present in the dirty bucket wins over
the in-flight bucket, which wins over the confirmed bucket.  (ii) After
setDirtyAttribute(key, v) with v different from the original, a later pushData leaves
getAttr(key) = v PROVIDED the key is absent from the in-flight bucket or the confirmed
value at the key after the push differs from v (in the excluded corner — key in flight
with another value while the push makes the confirmed value equal to v — the dirty entry
is dropped and getAttr returns the in-flight value, as the counterexample shows). -/
theorem getAttr_precedence_amended {α ε ρ : Type} [DecidableEq α]
    (s : RecordDataState α ε) (key : String) (v : α)
    (relDefs : List String) (d : JsonApiResource α ρ) (cc : Bool)
    (hNodup : ((s.attributes.getD []).map Prod.fst).Nodup)
    (hOrig : ¬ s.originalValueFor key = some v)
    (hProviso : alookup (s.inFlightAttributes.getD []) key = none
      ∨ ¬ alookup (((RecordDataState.pushData relDefs
            ((RecordDataState.setDirtyAttribute (ρ := ρ) s key v).1) d cc).state).data.getD []) key
          = some v) :
    (∀ (t : RecordDataState α ε) (k : String),
      t.getAttr k = oalt (alookup (t.attributes.getD []) k)
        (oalt (alookup (t.inFlightAttributes.getD []) k) (alookup (t.data.getD []) k)))
    ∧ (RecordDataState.pushData relDefs
        ((RecordDataState.setDirtyAttribute (ρ := ρ) s key v).1) d cc).state.getAttr key
      = some v := by
  refine ⟨fun t k => getAttr_eq_oalt t k, ?_⟩
  obtain ⟨hAttr, hInF, hData, _⟩ := setDirtyAttribute_state_of_ne (ρ := ρ) s key v hOrig
  have hSome : ((RecordDataState.setDirtyAttribute (ρ := ρ) s key v).1).attributes.isSome = true := by
    rw [hAttr]; rfl
  have hPS := pushData_state_of_isSome relDefs
    ((RecordDataState.setDirtyAttribute (ρ := ρ) s key v).1) d cc hSome
  rw [hPS, getAttr_eq_oalt]
  simp only [hAttr, hInF, hData, Option.getD_some] at hProviso ⊢
  rw [hPS] at hProviso
  simp only [hAttr, hInF, hData, Option.getD_some] at hProviso
  have hnodup2 := nodupkeys_aset hNodup key v
  have hnew : alookup (aassign (aassign [] (s.inFlightAttributes.getD []))
      (aset (s.attributes.getD []) key v)) key = some v := by
    rw [alookup_aassign, alookup_reverse hnodup2, alookup_aset_self]
    rfl
  rw [alookup_filter_key (aset (s.attributes.getD []) key v)
    (fun k0 => !(alookup (aassign (s.data.getD []) (d.attributes.getD [])) k0
      == alookup (aassign (aassign [] (s.inFlightAttributes.getD []))
           (aset (s.attributes.getD []) key v)) k0)) key]
  rw [hnew]
  by_cases hd : alookup (aassign (s.data.getD []) (d.attributes.getD [])) key = some v
  · rcases hProviso with hIFnone | hne
    · simp [hd, hIFnone, oalt]
    · exact absurd hd hne
  · have hbeq : (alookup (aassign (s.data.getD []) (d.attributes.getD [])) key == some v) = false := by
      exact beq_eq_false_iff_ne.mpr hd
    simp [hbeq, alookup_aset_self, oalt]

/-- Witness for C2 (amended) at a concrete cache: name is confirmed as u, not in
flight; dirty it to v (original u differs from v); push name=y.  getAttr stays v. -/
theorem getAttr_precedence_amended_witness :
    (RecordDataState.pushData (ρ := String) []
      ((RecordDataState.setDirtyAttribute (ρ := String) sampleCacheC2 "name" "v").1)
      ⟨some [("name", "y")], none⟩ false).state.getAttr "name" = some "v" := by
  exact (getAttr_precedence_amended sampleCacheC2 "name" "v" []
    ⟨some [("name", "y")], none⟩ false (by decide) (by decide) (Or.inl (by decide))).2

/-! Claim C10. -/

theorem stateChange_not_mem_propertyChanges {ρ : Type} (ks : List String) :
    ¬ RDEvent.stateChange (ρ := ρ) ∈ ks.map (fun k => RDEvent.propertyChange (some k)) := by
  intro hmem
  rcases List.mem_map.mp hmem with ⟨a, _, hEq⟩
  exact RDEvent.noConfusion hEq

theorem stateChange_not_mem_graphPushes {α ε ρ : Type} (relDefs : List String)
    (t : RecordDataState α ε) (rels : List (String × ρ)) :
    ¬ RDEvent.stateChange ∈ setupRelationshipsEvents relDefs t rels := by
  intro hmem
  rcases List.mem_filterMap.mp hmem with ⟨a, _, hEq⟩
  rcases halook : alookup rels a with _ | val <;> rw [halook] at hEq <;> simp at hEq

/-- C10: pushData always clears the new flag (isNew() is false afterwards); on a record
marked new it emits the state-change notification as the very first event — before the
attribute merge and all attribute notifications — and exactly once; on a record that is
not new it emits no state-change notification. -/
theorem pushData_clears_isNew {α ε ρ : Type} [DecidableEq α] [DecidableEq ρ] (relDefs : List String)
    (s : RecordDataState α ε) (d : JsonApiResource α ρ) (cc : Bool) :
    ((RecordDataState.pushData relDefs s d cc).state.isNew = false)
    ∧ (s.isNew = true →
        ((RecordDataState.pushData relDefs s d cc).events.head? = some RDEvent.stateChange
         ∧ (RecordDataState.pushData relDefs s d cc).events.count RDEvent.stateChange = 1))
    ∧ (s.isNew = false →
        ¬ RDEvent.stateChange ∈ (RecordDataState.pushData relDefs s d cc).events) := by
  obtain ⟨sid, sNew, sDel, sAttrs, sInF, sData, sErrs⟩ := s
  obtain ⟨dAttrs, dRels⟩ := d
  refine ⟨pushData_isNew_false relDefs _ _ cc, ?_, ?_⟩
  · intro hNew
    have h2 : sNew = true := hNew
    subst h2
    cases sAttrs <;> rcases dRels with _ | rels <;> cases cc <;>
      simp [RecordDataState.pushData, RecordDataState.updateChangedAttributes,
        stateChange_not_mem_propertyChanges, stateChange_not_mem_graphPushes,
        List.count_eq_zero, RecordDataState.changedKeysOf, List.mem_map, List.mem_filterMap,
        setupRelationshipsEvents, Option.map_eq_some']
  · intro hNew
    have h2 : sNew = false := hNew
    subst h2
    cases sAttrs <;> rcases dRels with _ | rels <;> cases cc <;>
      simp [RecordDataState.pushData, RecordDataState.updateChangedAttributes,
        stateChange_not_mem_propertyChanges, stateChange_not_mem_graphPushes,
        RecordDataState.changedKeysOf, List.mem_map, List.mem_filterMap,
        setupRelationshipsEvents, Option.map_eq_some']

/-- Witness for C10: pushing a payload onto a client-created record clears the flag and
emits the state change as the first event. -/
theorem pushData_clears_isNew_witness :
    ((RecordDataState.pushData (ρ := String) []
        ((RecordDataState.fresh (α := String) (ε := String) identA).clientDidCreate)
        ⟨some [("name", "u")], none⟩ true).state.isNew = false)
    ∧ ((RecordDataState.pushData (ρ := String) []
        ((RecordDataState.fresh (α := String) (ε := String) identA).clientDidCreate)
        ⟨some [("name", "u")], none⟩ true).events.head? = some RDEvent.stateChange) := by
  have h := pushData_clears_isNew (ρ := String) []
    ((RecordDataState.fresh (α := String) (ε := String) identA).clientDidCreate)
    ⟨some [("name", "u")], none⟩ true
  exact ⟨h.1, (h.2.1 rfl).1⟩

/-! Claim C1. -/

theorem push_ok_buffers {E ρ : Type} (kindOf : StableRecordIdentifier → String → RelKind)
    (g g' : GraphQueueState E ρ) (op : RemoteRelationshipOperation ρ)
    (h : Graph.push kindOf g op = Except.ok g') :
    g'.pushedUpdates.deletions
        = g.pushedUpdates.deletions ++ (if isDeletionOp op then [op] else [])
    ∧ g'.pushedUpdates.hasMany
        = g.pushedUpdates.hasMany ++ (if isHasManyOp kindOf op then [op] else [])
    ∧ g'.pushedUpdates.belongsTo
        = g.pushedUpdates.belongsTo ++ (if isBelongsToOp kindOf op then [op] else [])
    ∧ g'.willSyncRemote = true := by
  cases op with
  | deleteRecord rec isN =>
    simp only [Graph.push, Except.ok.injEq] at h
    subst h
    simp [isDeletionOp, isHasManyOp, isBelongsToOp]
  | replaceRelatedRecord rec fld val =>
    simp only [Graph.push, Except.ok.injEq] at h
    subst h
    simp [isDeletionOp, isHasManyOp, isBelongsToOp]
  | updateRelationship rec fld val =>
    rcases hk : kindOf rec fld with _ | _ | _ <;>
      simp only [Graph.push, hk, Except.ok.injEq] at h
    · subst h
      simp [isDeletionOp, isHasManyOp, isBelongsToOp, hk]
    · subst h
      simp [isDeletionOp, isHasManyOp, isBelongsToOp, hk]
    · exact absurd h (by simp)

theorem pushAll_ok_buffers {E ρ : Type} (kindOf : StableRecordIdentifier → String → RelKind)
    (ops : List (RemoteRelationshipOperation ρ)) (g g' : GraphQueueState E ρ)
    (h : Graph.pushAll kindOf g ops = Except.ok g') :
    g'.pushedUpdates.deletions = g.pushedUpdates.deletions ++ ops.filter isDeletionOp
    ∧ g'.pushedUpdates.hasMany = g.pushedUpdates.hasMany ++ ops.filter (isHasManyOp kindOf)
    ∧ g'.pushedUpdates.belongsTo = g.pushedUpdates.belongsTo ++ ops.filter (isBelongsToOp kindOf)
    ∧ g'.willSyncRemote = (g.willSyncRemote || !ops.isEmpty) := by
  induction ops generalizing g with
  | nil =>
    simp only [Graph.pushAll, Except.ok.injEq] at h
    subst h
    simp
  | cons op rest ih =>
    simp only [Graph.pushAll] at h
    rcases hp : Graph.push kindOf g op with e | g1 <;> rw [hp] at h
    · exact absurd h (by simp)
    · obtain ⟨h1, h2, h3, h4⟩ := push_ok_buffers kindOf g g1 op hp
      obtain ⟨i1, i2, i3, i4⟩ := ih g1 h
      refine ⟨?_, ?_, ?_, ?_⟩
      · rw [i1, h1, List.filter_cons]
        by_cases hc : isDeletionOp op <;> simp [hc]
      · rw [i2, h2, List.filter_cons]
        by_cases hc : isHasManyOp kindOf op <;> simp [hc]
      · rw [i3, h3, List.filter_cons]
        by_cases hc : isBelongsToOp kindOf op <;> simp [hc]
      · rw [i4, h4]
        simp

/-- C1: starting from a graph whose pending remote buffers are empty (the state left by
any coalesce pass), push any batch of remote operations within one turn; one run of the
remote coalesce pass then empties all three buffers and applies every buffered operation
via `update(op, true)` in the fixed order: all pushed deletions first, then all pushed
hasMany updates, then all pushed belongsTo updates, preserving push order within each
buffer — whatever the effect `upd` of the update dispatch on the edges and whatever the
transaction finalizer `fin`. -/
theorem flushRemoteQueue_drains_in_order {E ρ : Type}
    (kindOf : StableRecordIdentifier → String → RelKind)
    (upd : RemoteRelationshipOperation ρ → E → E) (fin : E → E)
    (g0 g : GraphQueueState E ρ) (ops : List (RemoteRelationshipOperation ρ))
    (hClean : g0.pushedUpdates = { belongsTo := [], hasMany := [], deletions := [] })
    (hPush : Graph.pushAll kindOf g0 ops = Except.ok g) :
    ((Graph.flushRemoteQueue upd fin g).1.pushedUpdates
      = { belongsTo := [], hasMany := [], deletions := [] })
    ∧ (Graph.flushRemoteQueue upd fin g).2
        = (ops.filter isDeletionOp ++ ops.filter (isHasManyOp kindOf)
            ++ ops.filter (isBelongsToOp kindOf)).map (fun op => (op, true)) := by
  obtain ⟨h1, h2, h3, h4⟩ := pushAll_ok_buffers kindOf ops g0 g hPush
  rw [hClean] at h1 h2 h3
  simp only [List.nil_append] at h1 h2 h3
  by_cases hws : g.willSyncRemote = true
  · constructor
    · simp [Graph.flushRemoteQueue, hws]
    · simp only [Graph.flushRemoteQueue, hws, Bool.not_true, Bool.false_eq_true, if_false]
      rw [h1, h2, h3]
  · have hops : ops = [] := by
      cases ops with
      | nil => rfl
      | cons a t =>
        rw [h4] at hws
        simp at hws
    subst hops
    simp only [List.filter_nil] at h1 h2 h3
    have hclean2 : g.pushedUpdates = { belongsTo := [], hasMany := [], deletions := [] } := by
      have heta : g.pushedUpdates
          = ⟨g.pushedUpdates.belongsTo, g.pushedUpdates.hasMany, g.pushedUpdates.deletions⟩ := rfl
      rw [heta, h1, h2, h3]
    have hfl : Graph.flushRemoteQueue upd fin g = (g, []) := by
      simp [Graph.flushRemoteQueue, hws]
    rw [hfl]
    exact ⟨hclean2, rfl⟩

/-- Witness for C1: the sample batch of four operations, pushed from a flushed graph,
is applied deletion first, then the hasMany update, then the two belongsTo updates. -/
theorem flushRemoteQueue_drains_in_order_witness :
    ((Graph.flushRemoteQueue (fun _ (e : Unit) => e) (fun e => e) sampleQueueAfterPush).1.pushedUpdates
      = { belongsTo := [], hasMany := [], deletions := [] })
    ∧ (Graph.flushRemoteQueue (fun _ (e : Unit) => e) (fun e => e) sampleQueueAfterPush).2
        = [(RemoteRelationshipOperation.deleteRecord identC true, true),
           (RemoteRelationshipOperation.updateRelationship identA "comments" "x", true),
           (RemoteRelationshipOperation.replaceRelatedRecord identB "post" (some identA), true),
           (RemoteRelationshipOperation.updateRelationship identB "post" "y", true)] := by
  have h := flushRemoteQueue_drains_in_order sampleKindOf (fun _ (e : Unit) => e) (fun e => e)
    { willSyncRemote := false, pushedUpdates := { belongsTo := [], hasMany := [], deletions := [] },
      edges := () }
    sampleQueueAfterPush sampleOps rfl rfl
  refine ⟨h.1, ?_⟩
  rw [h.2]
  rfl

/-! Claim C3. -/

theorem find?_append_of_none {β : Type} (l₁ l₂ : List β) (p : β → Bool)
    (h : l₁.find? p = none) : (l₁ ++ l₂).find? p = l₂.find? p := by
  induction l₁ with
  | nil => rfl
  | cons a rest ih =>
    by_cases hp : p a = true
    · rw [List.find?_cons_of_pos _ hp] at h
      exact absurd h (by simp)
    · rw [List.find?_cons_of_neg _ hp] at h
      rw [List.cons_append, List.find?_cons_of_neg _ hp]
      exact ih h

/-- C3 counterexample: schedule a fetch for identA with include "a", then one with
include "b", then repeat the include "b" call while both are pending.  The repeated
call does NOT reuse the pending promise: the by-identifier search finds the older
include "a" entry, the option check fails, and a third entry with a fresh promise is
appended — three pending fetches and two distinct promises for the identical pair. -/
theorem scheduleFetch_dedup_counterexample :
    let r1 := scheduleFetch ⟨[], 0⟩ identA ⟨some "a"⟩
    let r2 := scheduleFetch r1.2 identA ⟨some "b"⟩
    let r3 := scheduleFetch r2.2 identA ⟨some "b"⟩
    (r3.1 == r2.1) = false
    ∧ (r3.2 == r2.2) = false
    ∧ ((alookup r3.2.pendingFetch "post").getD []).length = 3 := by
  decide

/-- C3 (amended): when NO pending fetch entry for the identifier exists yet, a first
scheduleFetch registers one entry, and a second call with the same identifier and
equivalent options (same include) while the first is pending returns the very same
promise and leaves the pending-fetch table unchanged, so exactly one fetch is issued.
(When an older pending entry for the same identifier with non-equivalent options
exists, the by-identifier search returns that entry, its option check fails, and a new
fetch is issued — the counterexample.) -/
theorem scheduleFetch_dedup_amended (s : FetchManagerState)
    (identifier : StableRecordIdentifier) (options options' : FindOptions)
    (hNoPrior : ((alookup s.pendingFetch identifier.ityp).getD []).find?
        (fun fetch => fetch.identifier == identifier) = none)
    (hSame : isSameRequest options' options = true) :
    scheduleFetch (scheduleFetch s identifier options).2 identifier options'
      = ((scheduleFetch s identifier options).1, (scheduleFetch s identifier options).2) := by
  have hgp : getPendingFetch s identifier options = none := by
    unfold getPendingFetch
    rcases htab : alookup s.pendingFetch identifier.ityp with _ | fetches
    · rfl
    · rw [htab] at hNoPrior
      simp only [Option.getD_some] at hNoPrior
      simp [hNoPrior]
  have hs1 : (scheduleFetch s identifier options).2.pendingFetch
      = aset s.pendingFetch identifier.ityp
          (((alookup s.pendingFetch identifier.ityp).getD [])
            ++ [⟨identifier, options, s.nextPromiseId⟩]) := by
    simp [scheduleFetch, hgp]
  have hp1 : (scheduleFetch s identifier options).1 = s.nextPromiseId := by
    simp [scheduleFetch, hgp]
  have hfind : List.find? (fun fetch => fetch.identifier == identifier)
      ((((alookup s.pendingFetch identifier.ityp).getD [])
        ++ [⟨identifier, options, s.nextPromiseId⟩]) : List PendingFetchItem)
      = some ⟨identifier, options, s.nextPromiseId⟩ := by
    rw [find?_append_of_none _ _ _ hNoPrior]
    simp [List.find?]
  have hgp2 : getPendingFetch (scheduleFetch s identifier options).2 identifier options'
      = some s.nextPromiseId := by
    unfold getPendingFetch
    rw [hs1, alookup_aset_self]
    simp [hfind, hSame]
  have hfinal : ∀ t : FetchManagerState,
      getPendingFetch t identifier options' = some s.nextPromiseId →
      scheduleFetch t identifier options' = (s.nextPromiseId, t) := by
    intro t ht
    unfold scheduleFetch
    rw [ht]
  rw [hfinal _ hgp2, hp1]

/-- Witness for C3 (amended): a first fetch for identA, then an identical second call;
the promise is reused and the table unchanged. -/
theorem scheduleFetch_dedup_amended_witness :
    scheduleFetch (scheduleFetch (⟨[], 0⟩ : FetchManagerState) identA ⟨some "a"⟩).2
        identA ⟨some "a"⟩
      = ((scheduleFetch (⟨[], 0⟩ : FetchManagerState) identA ⟨some "a"⟩).1,
         (scheduleFetch (⟨[], 0⟩ : FetchManagerState) identA ⟨some "a"⟩).2) := by
  exact scheduleFetch_dedup_amended ⟨[], 0⟩ identA ⟨some "a"⟩ ⟨some "a"⟩ (by decide) (by decide)

/-! Claim C8. -/

/-- C8 counterexample: with the `_removing` slot holding identA — so no removal for a
DIFFERENT identifier is in progress — `remove(identA)` still hits the fatal assertion:
the guard is `assert(..., !this._removing)`, not a different-identifier check. -/
theorem remove_guard_counterexample :
    ((⟨some identA, []⟩ : GraphRemovalState Unit)).removing = some identA
    ∧ Graph.remove (fun _ t => t) (⟨some identA, []⟩ : GraphRemovalState Unit) identA
        = Except.error "Cannot remove an identifier while still removing another" := by
  exact ⟨rfl, rfl⟩

/-- C8 (amended): `remove(identifier)` asserts exactly when ANY removal is already in
progress — the single `_removing` slot is occupied, whether by the same or by a
different identifier; on success the slot is restored to null and the identifier's edge
table is deleted, whatever edge effect `unload` has on the tables. -/
theorem remove_guard_amended {T : Type}
    (unloadFn : StableRecordIdentifier → List (StableRecordIdentifier × T) →
      List (StableRecordIdentifier × T))
    (g : GraphRemovalState T) (identifier : StableRecordIdentifier) :
    ((Graph.remove unloadFn g identifier
        = Except.error "Cannot remove an identifier while still removing another")
      ↔ g.removing.isSome = true)
    ∧ (∀ g', Graph.remove unloadFn g identifier = Except.ok g' →
        g'.removing = none ∧ ∀ p ∈ g'.identifiers, ¬ p.1 = identifier) := by
  constructor
  · constructor
    · intro h
      by_cases hr : g.removing.isSome
      · exact hr
      · simp [Graph.remove, hr] at h
    · intro hr
      simp [Graph.remove, hr]
  · intro g' h
    by_cases hr : g.removing.isSome
    · simp [Graph.remove, hr] at h
    · simp only [Graph.remove, hr, Bool.false_eq_true, if_false, Except.ok.injEq] at h
      subst h
      refine ⟨rfl, ?_⟩
      intro p hp hpe
      have hkeep := List.of_mem_filter hp
      simp [hpe] at hkeep

/-- Witness for C8 (amended): on an idle graph holding one edge table, remove succeeds,
frees the slot and deletes the identifier's table. -/
theorem remove_guard_amended_witness :
    Graph.remove (fun _ t => t) (⟨none, [(identA, ())]⟩ : GraphRemovalState Unit) identA
        = Except.ok (⟨none, []⟩ : GraphRemovalState Unit)
    ∧ ((⟨none, []⟩ : GraphRemovalState Unit).removing = none
        ∧ ∀ p ∈ (⟨none, []⟩ : GraphRemovalState Unit).identifiers, ¬ p.1 = identA) := by
  have h := remove_guard_amended (fun _ t => t)
    (⟨none, [(identA, ())]⟩ : GraphRemovalState Unit) identA
  exact ⟨rfl, h.2 _ rfl⟩

/-! Claim C6. -/

theorem contains_iff_mem_str (l : List String) (a : String) : l.contains a = true ↔ a ∈ l := by
  constructor <;> intro h <;> simpa using h

theorem visitLoop_append (seen : List String) (xs ys : List StableRecordIdentifier) :
    visitLoop seen (xs ++ ys)
      = ((visitLoop (visitLoop seen xs).1 ys).1,
         (visitLoop seen xs).2 ++ (visitLoop (visitLoop seen xs).1 ys).2) := by
  induction xs generalizing seen with
  | nil => simp [visitLoop]
  | cons x rest ih =>
    by_cases hx : x.lid ∈ seen
    · simp [visitLoop, contains_iff_mem_str, hx, ih]
    · simp [visitLoop, contains_iff_mem_str, hx, ih]

theorem visitLoop_sublist (seen : List String) (l : List StableRecordIdentifier) :
    (visitLoop seen l).2.Sublist l := by
  induction l generalizing seen with
  | nil => simp [visitLoop]
  | cons x rest ih =>
    by_cases hx : x.lid ∈ seen
    · simp only [visitLoop, contains_iff_mem_str, hx, if_true]
      exact (ih seen).cons x
    · simp only [visitLoop, contains_iff_mem_str, hx, if_false]
      exact (ih (x.lid :: seen)).cons₂ x

theorem visitLoop_seen_mem (seen : List String) (l : List StableRecordIdentifier) (id0 : String) :
    id0 ∈ (visitLoop seen l).1
      ↔ (id0 ∈ seen ∨ id0 ∈ l.map StableRecordIdentifier.lid) := by
  induction l generalizing seen with
  | nil => simp [visitLoop]
  | cons x rest ih =>
    by_cases hx : x.lid ∈ seen
    · simp only [visitLoop, contains_iff_mem_str, hx, if_true, List.map_cons, List.mem_cons]
      rw [ih]
      constructor
      · rintro (h | h)
        · exact Or.inl h
        · exact Or.inr (Or.inr h)
      · rintro (h | h | h)
        · exact Or.inl h
        · exact Or.inl (by rw [h]; exact hx)
        · exact Or.inr h
    · simp only [visitLoop, contains_iff_mem_str, hx, if_false, List.map_cons, List.mem_cons]
      rw [ih, List.mem_cons]
      tauto

theorem visitLoop_visits_mem (seen : List String) (l : List StableRecordIdentifier)
    (x : StableRecordIdentifier) (h : x ∈ (visitLoop seen l).2) :
    x ∈ l ∧ ¬ x.lid ∈ seen := by
  induction l generalizing seen with
  | nil => simp [visitLoop] at h
  | cons y rest ih =>
    by_cases hy : y.lid ∈ seen
    · simp only [visitLoop, contains_iff_mem_str, hy, if_true] at h
      obtain ⟨h1, h2⟩ := ih seen h
      exact ⟨List.mem_cons_of_mem y h1, h2⟩
    · simp only [visitLoop, contains_iff_mem_str, hy, if_false] at h
      rcases List.mem_cons.mp h with rfl | hmem
      · exact ⟨List.mem_cons_self x rest, hy⟩
      · obtain ⟨h1, h2⟩ := ih (y.lid :: seen) hmem
        exact ⟨List.mem_cons_of_mem y h1, fun hx => h2 (List.mem_cons_of_mem _ hx)⟩

theorem visitLoop_lids_nodup (seen : List String) (l : List StableRecordIdentifier) :
    ((visitLoop seen l).2.map StableRecordIdentifier.lid).Nodup
    ∧ ∀ id0 ∈ (visitLoop seen l).2.map StableRecordIdentifier.lid, ¬ id0 ∈ seen := by
  induction l generalizing seen with
  | nil => simp [visitLoop]
  | cons y rest ih =>
    by_cases hy : y.lid ∈ seen
    · simpa [visitLoop, contains_iff_mem_str, hy] using ih seen
    · obtain ⟨ihn, ihs⟩ := ih (y.lid :: seen)
      simp only [visitLoop, contains_iff_mem_str, hy, if_false, List.map_cons]
      constructor
      · refine List.nodup_cons.mpr ⟨?_, ihn⟩
        intro hmem
        exact (ihs _ hmem) (List.mem_cons_self _ _)
      · intro id0 hid0 hseen
        rcases List.mem_cons.mp hid0 with rfl | hmem
        · exact hy hseen
        · exact (ihs _ hmem) (List.mem_cons_of_mem _ hseen)

theorem visitLoop_complete (seen : List String) (l : List StableRecordIdentifier)
    (y : StableRecordIdentifier) (hy : y ∈ l) (hs : ¬ y.lid ∈ seen) :
    ∃ z ∈ (visitLoop seen l).2, z.lid = y.lid := by
  induction l generalizing seen with
  | nil => cases hy
  | cons x rest ih =>
    by_cases hx : x.lid ∈ seen
    · simp only [visitLoop, contains_iff_mem_str, hx, if_true]
      rcases List.mem_cons.mp hy with rfl | hmem
      · exact absurd hx hs
      · exact ih seen hmem hs
    · simp only [visitLoop, contains_iff_mem_str, hx, if_false]
      by_cases hyl : y.lid = x.lid
      · exact ⟨x, List.mem_cons_self _ _, hyl.symm⟩
      · rcases List.mem_cons.mp hy with rfl | hmem
        · exact absurd rfl hyl
        · obtain ⟨z, hz1, hz2⟩ := ih (x.lid :: seen) hmem (by simp [hs, hyl])
          exact ⟨z, List.mem_cons_of_mem _ hz1, hz2⟩

/-- C6: `forAllMembers` invokes its callback exactly once per identifier in the union
of the edge's current and canonical membership: the currentState entries first, in
currentState order, then the canonicalState entries not already seen, with no
identifier visited twice (deduplicated by identifier, i.e. by interned lid). -/
theorem forAllMembers_visits_union_once {M L : Type} (r : ManyRelationship M L)
    (hinj : ∀ a ∈ r.currentState ++ r.canonicalState,
      ∀ b ∈ r.currentState ++ r.canonicalState, a.lid = b.lid → a = b) :
    (∀ x, x ∈ r.forAllMembersVisits ↔ (x ∈ r.currentState ∨ x ∈ r.canonicalState))
    ∧ (∀ x ∈ r.forAllMembersVisits, r.forAllMembersVisits.count x = 1)
    ∧ (∃ v1 v2, r.forAllMembersVisits = v1 ++ v2 ∧ v1.Sublist r.currentState
        ∧ v2.Sublist r.canonicalState
        ∧ ∀ y ∈ v2, ∀ z ∈ v1, ¬ y.lid = z.lid) := by
  have hsplit : r.forAllMembersVisits = (visitLoop [] (r.currentState ++ r.canonicalState)).2 := by
    simp [ManyRelationship.forAllMembersVisits, visitLoop_append]
  have hmem : ∀ x, x ∈ r.forAllMembersVisits ↔ (x ∈ r.currentState ∨ x ∈ r.canonicalState) := by
    intro x
    constructor
    · intro hx
      rw [hsplit] at hx
      have h1 := (visitLoop_visits_mem _ _ x hx).1
      exact List.mem_append.mp h1
    · intro hx
      have hx' : x ∈ r.currentState ++ r.canonicalState := List.mem_append.mpr hx
      obtain ⟨z, hz1, hz2⟩ := visitLoop_complete [] _ x hx' (by simp)
      have hz3 : z ∈ r.currentState ++ r.canonicalState := (visitLoop_visits_mem _ _ z hz1).1
      have : z = x := hinj z hz3 x hx' hz2
      rw [hsplit]
      exact this ▸ hz1
  refine ⟨hmem, ?_, ?_⟩
  · intro x hx
    have hnodup : r.forAllMembersVisits.Nodup := by
      rw [hsplit]
      exact List.Nodup.of_map _ (visitLoop_lids_nodup [] _).1
    exact List.count_eq_one_of_mem hnodup hx
  · refine ⟨(visitLoop [] r.currentState).2,
      (visitLoop (visitLoop [] r.currentState).1 r.canonicalState).2, rfl, ?_, ?_, ?_⟩
    · exact visitLoop_sublist [] r.currentState
    · exact visitLoop_sublist _ r.canonicalState
    · intro y hy z hz hyz
      have hyns := (visitLoop_visits_mem _ _ y hy).2
      have hz1 := (visitLoop_visits_mem _ _ z hz).1
      have hzl : z.lid ∈ (visitLoop [] r.currentState).1 := by
        rw [visitLoop_seen_mem]
        exact Or.inr (List.mem_map_of_mem _ hz1)
      exact hyns (hyz ▸ hzl)

/-- Witness for C6 at a concrete edge whose current state has a duplicate and whose
canonical state overlaps the current state: the visit order is current-first,
deduplicated, and each visited identifier is counted once. -/
theorem forAllMembers_visits_union_once_witness :
    sampleEdgeOverlap.forAllMembersVisits = [identB, identC, identA]
    ∧ sampleEdgeOverlap.forAllMembersVisits.count identB = 1
    ∧ (identA ∈ sampleEdgeOverlap.forAllMembersVisits
        ↔ (identA ∈ sampleEdgeOverlap.currentState ∨ identA ∈ sampleEdgeOverlap.canonicalState)) := by
  have h := forAllMembers_visits_union_once sampleEdgeOverlap (by decide)
  exact ⟨by decide, h.2.1 identB (by decide), h.1 identA⟩

/-! Claim C4. -/

theorem alookup_settle_self {ρ : Type} (acc : List (String × FetchOutcome ρ)) (k : String)
    (o : FetchOutcome ρ) : alookup (settle acc k o) k = oalt (alookup acc k) (some o) := by
  unfold settle
  cases hA : alookup acc k with
  | some x => simp [hA, oalt]
  | none => simp [hA, alookup_append, alookup, oalt]

theorem alookup_settle_ne {ρ : Type} (acc : List (String × FetchOutcome ρ)) {k k' : String}
    (o : FetchOutcome ρ) (h : ¬ k' = k) : alookup (settle acc k o) k' = alookup acc k' := by
  unfold settle
  cases hA : alookup acc k with
  | some x => simp
  | none =>
    simp only [Option.isSome_none, Bool.false_eq_true, if_false]
    rw [alookup_append]
    have h' : ¬ k = k' := fun hh => h (Eq.symm hh)
    have h2 : alookup [(k, o)] k' = none := by
      simp [alookup, h']
    rw [h2, oalt_none_right]

theorem alookup_resolveFound {σ ρ : Type} (seeking : List (String × σ))
    (included : List (ResourceObject ρ)) (settled : List (String × FetchOutcome ρ))
    (payloads : List (ResourceObject ρ)) (k : String) :
    alookup (resolveFound seeking included settled payloads) k
      = oalt (alookup settled k)
          (match payloads.find? (fun r => r.rid == k), alookup seeking k with
           | some p, some _ => some (FetchOutcome.resolved p included)
           | _, _ => none) := by
  induction payloads generalizing settled with
  | nil => simp [resolveFound, List.find?, oalt_none_right]
  | cons payload rest ih =>
    simp only [resolveFound]
    rw [ih]
    by_cases hk : payload.rid = k
    · subst hk
      rw [List.find?_cons_of_pos _ (by simp)]
      rcases hS : alookup seeking payload.rid with _ | slot
      · cases hF : List.find? (fun r => r.rid == payload.rid) rest <;>
          cases hT : alookup settled payload.rid <;>
            simp [hT, oalt]
      · cases hF : List.find? (fun r => r.rid == payload.rid) rest <;>
          cases hT : alookup settled payload.rid <;>
            simp [alookup_settle_self, hT, oalt]
    · rw [List.find?_cons_of_neg _ (by simp [hk])]
      have hk' : ¬ k = payload.rid := fun hh => hk (Eq.symm hh)
      rcases hS : alookup seeking payload.rid with _ | slot
      · rfl
      · simp [alookup_settle_ne settled (FetchOutcome.resolved payload included) hk']

theorem alookup_rejectFetchedItems {σ ρ : Type} (seeking : List (String × σ))
    (error? : Option String) (settled : List (String × FetchOutcome ρ))
    (snapshots : List SnapshotStub) (k : String) :
    alookup (rejectFetchedItems seeking error? settled snapshots) k
      = oalt (alookup settled k)
          (match snapshots.find? (fun sn => sn.sid == k), alookup seeking k with
           | some sn, some _ =>
             some (FetchOutcome.rejected
               (error?.getD (notFoundMessage sn.modelName sn.sid)))
           | _, _ => none) := by
  induction snapshots generalizing settled with
  | nil => simp [rejectFetchedItems, List.find?, oalt_none_right]
  | cons sn rest ih =>
    simp only [rejectFetchedItems]
    rw [ih]
    by_cases hk : sn.sid = k
    · subst hk
      rw [List.find?_cons_of_pos _ (by simp)]
      rcases hS : alookup seeking sn.sid with _ | slot
      · cases hF : List.find? (fun s0 => s0.sid == sn.sid) rest <;>
          cases hT : alookup settled sn.sid <;>
            simp [hT, oalt]
      · cases hF : List.find? (fun s0 => s0.sid == sn.sid) rest <;>
          cases hT : alookup settled sn.sid <;>
            simp [alookup_settle_self, hT, oalt]
    · rw [List.find?_cons_of_neg _ (by simp [hk])]
      have hk' : ¬ k = sn.sid := fun hh => hk (Eq.symm hh)
      rcases hS : alookup seeking sn.sid with _ | slot
      · rfl
      · simp [alookup_settle_ne settled
          (FetchOutcome.rejected (error?.getD (notFoundMessage sn.modelName sn.sid))) hk']

theorem find?_isSome_of_mem {β : Type} {l : List β} {p : β → Bool} {a : β}
    (ha : a ∈ l) (hp : p a = true) : ∃ b, l.find? p = some b := by
  induction l with
  | nil => cases ha
  | cons x rest ih =>
    by_cases hx : p x = true
    · exact ⟨x, List.find?_cons_of_pos _ hx⟩
    · rcases List.mem_cons.mp ha with rfl | hmem
      · exact absurd hp hx
      · obtain ⟨b, hb⟩ := ih hmem
        exact ⟨b, by rw [List.find?_cons_of_neg _ hx, hb]⟩

/-- C4: in `handleFoundRecords`, every expected snapshot whose pending pair exists is
settled: if its id occurs in the returned primary data its resolver is resolved with
the first matching payload member and the shared included list; if its id is absent
from the primary data its resolver is rejected, individually, with the not-found error
naming that record — siblings in the same batch are settled independently by their own
ids. -/
theorem handleFoundRecords_settles_each {σ ρ : Type} (seeking : List (String × σ))
    (coalescedPayload : CollectionResourceDocument ρ) (expectedSnapshots : List SnapshotStub)
    (sn : SnapshotStub) (hMem : sn ∈ expectedSnapshots)
    (hSeek : (alookup seeking sn.sid).isSome = true)
    (hSameModel : ∀ sn' ∈ expectedSnapshots, sn'.sid = sn.sid → sn'.modelName = sn.modelName) :
    (∀ p, coalescedPayload.data.find? (fun r => r.rid == sn.sid) = some p →
      alookup (handleFoundRecords seeking coalescedPayload expectedSnapshots) sn.sid
        = some (FetchOutcome.resolved p
            ((coalescedPayload.included.getD []) ++ coalescedPayload.data)))
    ∧ (¬ sn.sid ∈ coalescedPayload.data.map (fun r => r.rid) →
      alookup (handleFoundRecords seeking coalescedPayload expectedSnapshots) sn.sid
        = some (FetchOutcome.rejected (notFoundMessage sn.modelName sn.sid))) := by
  obtain ⟨slot, hslot⟩ := Option.isSome_iff_exists.mp hSeek
  constructor
  · intro p hfound
    unfold handleFoundRecords
    have hres := alookup_resolveFound seeking
      ((coalescedPayload.included.getD []) ++ coalescedPayload.data) []
      coalescedPayload.data sn.sid
    rw [hfound, hslot] at hres
    simp only [alookup, oalt] at hres
    by_cases hmiss : (expectedSnapshots.filter
        (fun sn0 => !((coalescedPayload.data.map (fun p0 => p0.rid)).contains sn0.sid))).isEmpty
    · simp only [hmiss, if_true]
      exact hres
    · simp only [hmiss, Bool.false_eq_true, if_false]
      rw [alookup_rejectFetchedItems, hres]
      rfl
  · intro hmiss
    unfold handleFoundRecords
    have hfindnone : coalescedPayload.data.find? (fun r => r.rid == sn.sid) = none := by
      rw [List.find?_eq_none]
      intro x hx hbeq
      exact hmiss (List.mem_map.mpr ⟨x, hx, by simpa using hbeq⟩)
    have hres := alookup_resolveFound seeking
      ((coalescedPayload.included.getD []) ++ coalescedPayload.data) []
      coalescedPayload.data sn.sid
    rw [hfindnone] at hres
    simp only [alookup, oalt] at hres
    have hsnfilter : sn ∈ expectedSnapshots.filter
        (fun sn0 => !((coalescedPayload.data.map (fun p0 => p0.rid)).contains sn0.sid)) := by
      rw [List.mem_filter]
      refine ⟨hMem, ?_⟩
      simp only [Bool.not_eq_true']
      rw [← Bool.not_eq_true]
      intro hc
      exact hmiss (by simpa using hc)
    have hnonempty : ¬ (expectedSnapshots.filter
        (fun sn0 => !((coalescedPayload.data.map (fun p0 => p0.rid)).contains sn0.sid))).isEmpty = true := by
      intro he
      rw [List.isEmpty_iff] at he
      rw [he] at hsnfilter
      cases hsnfilter
    simp only [hnonempty, Bool.false_eq_true, if_false]
    rw [alookup_rejectFetchedItems, hres]
    obtain ⟨sn0, hsn0⟩ := find?_isSome_of_mem (p := fun s0 => s0.sid == sn.sid) hsnfilter (by simp)
    rw [hsn0, hslot]
    have hsn0mem := List.mem_of_find?_eq_some hsn0
    have hsn0sid : sn0.sid = sn.sid := by
      have := List.find?_some hsn0
      simpa using this
    have hsn0model : sn0.modelName = sn.modelName :=
      hSameModel sn0 (List.mem_of_mem_filter hsn0mem) hsn0sid
    simp [oalt, hsn0sid, hsn0model]

/-- Witness for C4 at a concrete batch: ids "1" and "2" requested, only "1" returned;
the pair for "1" resolves with its payload, the pair for "2" is rejected with the
not-found error naming comment:2. -/
theorem handleFoundRecords_settles_each_witness :
    alookup (handleFoundRecords sampleSeeking samplePayloadDoc sampleExpected) "2"
      = some (FetchOutcome.rejected (notFoundMessage "comment" "2"))
    ∧ alookup (handleFoundRecords sampleSeeking samplePayloadDoc sampleExpected) "1"
      = some (FetchOutcome.resolved ({ rtyp := "comment", rid := "1", body := "b1" })
          ([{ rtyp := "comment", rid := "1", body := "b1" }])) := by
  have h2 := handleFoundRecords_settles_each sampleSeeking samplePayloadDoc sampleExpected
    { modelName := "comment", sid := "2" } (by decide) (by decide) (by decide)
  have h1 := handleFoundRecords_settles_each sampleSeeking samplePayloadDoc sampleExpected
    { modelName := "comment", sid := "1" } (by decide) (by decide) (by decide)
  exact ⟨h2.2 (by decide), h1.1 _ (by decide)⟩
